import Mathlib

set_option maxHeartbeats 1000000

namespace CertMon

/-- Calendar date, as Python datetime.date: year, month, day. -/
structure Date where
  year : Int
  month : Int
  day : Int
deriving DecidableEq

/-- Gregorian leap-year rule (Python calendar). -/
def isLeap (y : Int) : Bool :=
  Int.emod y 4 == 0 && (Int.emod y 100 != 0 || Int.emod y 400 == 0)

/-- Number of days in a month of a given year. -/
def daysInMonth (y m : Int) : Int :=
  if m = 2 then (if isLeap y then 29 else 28)
  else if m = 4 ∨ m = 6 ∨ m = 9 ∨ m = 11 then 30
  else 31

/-- A date is valid when its month and day lie in calendar range. -/
def Date.Valid (d : Date) : Prop :=
  1 ≤ d.month ∧ d.month ≤ 12 ∧ 1 ≤ d.day ∧ d.day ≤ daysInMonth d.year d.month

instance (d : Date) : Decidable d.Valid := by
  unfold Date.Valid; infer_instance

/-- Lexicographic date comparison, as Python date comparison. -/
def dateLt (a b : Date) : Bool :=
  decide (a.year < b.year) ||
    (decide (a.year = b.year) &&
      (decide (a.month < b.month) ||
        (decide (a.month = b.month) && decide (a.day < b.day))))

/-- Day number of a date (civil-from-days inverse, Hinnant's algorithm);
only differences of this function are ever used. -/
def toOrdinal (dt : Date) : Int :=
  let y := if dt.month ≤ 2 then dt.year - 1 else dt.year
  let era := y / 400
  let yoe := y - era * 400
  let mp := (dt.month + 9) % 12
  let doy := (153 * mp + 2) / 5 + dt.day - 1
  let doe := yoe * 365 + yoe / 4 - yoe / 100 + doy
  era * 146097 + doe - 719468

/-- Add a number of months to a date, clamping the day to the month length,
exactly as dateutil applies relativedelta(months=n) to a date. -/
def addMonths (d : Date) (n : Int) : Date :=
  let t := d.year * 12 + (d.month - 1) + n
  let y := t / 12
  let m := t % 12 + 1
  ⟨y, m, min d.day (daysInMonth y m)⟩

/-- Year/month/day remainder record produced by dateutil relativedelta. -/
structure RD where
  years : Int
  months : Int
  days : Int
deriving DecidableEq

/-- The month-correction loop of dateutil relativedelta.__init__ (while
compare(dt1, dtm): months += increment).  In dateutil the loop is unbounded;
it needs at most one step, so the fuel of 100 used below never runs out. -/
def rdLoop (dt1 dt2 : Date) : Nat → Int → Int
  | 0, m => m
  | Nat.succ f, m =>
    let dtm := addMonths dt2 m
    if dateLt dt1 dt2 then
      (if dateLt dtm dt1 then rdLoop dt1 dt2 f (m + 1) else m)
    else
      (if dateLt dt1 dtm then rdLoop dt1 dt2 f (m - 1) else m)

/-- dateutil relativedelta(dt1, dt2) restricted to dates: raw month
difference, correction loop, day remainder, then normalisation of months
into years exactly as relativedelta._set_months does. -/
def relativedelta (dt1 dt2 : Date) : RD :=
  let months0 := (dt1.year - dt2.year) * 12 + (dt1.month - dt2.month)
  let months := rdLoop dt1 dt2 100 months0
  let dtm := addMonths dt2 months
  let days := toOrdinal dt1 - toOrdinal dtm
  let s : Int := if months < 0 then -1 else 1
  let am : Int := months * s
  if 11 < am then ⟨am / 12 * s, am % 12 * s, days⟩
  else ⟨0, months, days⟩

/-- Python datetime as a date plus seconds of day. -/
structure DateTime where
  date : Date
  sod : Int
deriving DecidableEq

/-- Successor day of a date. -/
def nextDay (d : Date) : Date :=
  if d.day < daysInMonth d.year d.month then ⟨d.year, d.month, d.day + 1⟩
  else if d.month < 12 then ⟨d.year, d.month + 1, 1⟩
  else ⟨d.year + 1, 1, 1⟩

/-- timedelta(hours=1) added to a datetime. -/
def addOneHour (t : DateTime) : DateTime :=
  if t.sod + 3600 < 86400 then ⟨t.date, t.sod + 3600⟩
  else ⟨nextDay t.date, t.sod + 3600 - 86400⟩

/-- is_within_three_months (certificate-parser.py lines 298-311): the
calendar-aware delta from today to the end date must span zero whole years,
at most two whole months and a non-negative day remainder. -/
def is_within_three_months (end_date : DateTime) (today : Date) : Bool :=
  let ed := end_date.date
  let delta := relativedelta ed today
  (delta.years == 0) && decide (delta.months ≤ 2) && decide (delta.days ≥ 0)

/-- Decoded X.509 data exposed by pyOpenSSL that parse_cert reads. -/
structure X509 where
  notBefore : DateTime
  notAfter : DateTime
  subject : List (String × String)
  serial : Nat
deriving DecidableEq

/-- Certificate record produced by parse_cert:
[not_before, not_after, issuer, serial_number]. -/
structure CertRec where
  not_before : DateTime
  not_after : DateTime
  issuer : String
  serial_number : String
deriving DecidableEq

/-- Python hex(n)[2:].upper(). -/
def hexUpper (n : Nat) : String :=
  String.mk ((Nat.toDigits 16 n).map Char.toUpper)

/-- parse_cert (certificate-parser.py lines 137-170): both validity
timestamps are shifted forward by one hour (timedelta(hours=1)); the issuer
string joins the subject components as comma-separated key=value pairs; the
serial number is uppercase hex without the 0x prefix. -/
def parse_cert (x : X509) : CertRec :=
  { not_before := addOneHour x.notBefore
    not_after := addOneHour x.notAfter
    issuer := String.intercalate (", ") (x.subject.map (fun kv => kv.1 ++ ("=") ++ kv.2))
    serial_number := hexUpper x.serial }

/-- month_converter (lines 372-397): German month names, or the fallback. -/
def month_converter (month : Int) : String :=
  if month = 1 then ("Januar")
  else if month = 2 then ("Februar")
  else if month = 3 then ("März")
  else if month = 4 then ("April")
  else if month = 5 then ("Mai")
  else if month = 6 then ("Juni")
  else if month = 7 then ("Juli")
  else if month = 8 then ("August")
  else if month = 9 then ("September")
  else if month = 10 then ("Oktober")
  else if month = 11 then ("November")
  else if month = 12 then ("Dezember")
  else ("Invalid month")

section AList

variable {α : Type} {β : Type} [DecidableEq α]

/-- First-match lookup in an association list (Python dict lookup; keys of
all dictionaries built here are unique, as in Python). -/
def alookup : List (α × β) → α → Option β
  | [], _ => none
  | (k2, v) :: t, k => if k2 = k then some v else alookup t k

/-- Update the entry of key k in place (first occurrence) or append it at
the end, as Python dict assignment and setdefault do. -/
def upsert (k : α) (f : Option β → β) : List (α × β) → List (α × β)
  | [] => [(k, f none)]
  | (k2, v) :: t => if k2 = k then (k2, f (some v)) :: t else (k2, v) :: upsert k f t

end AList

/-- Ledger file content: policy -> "monthName/year" -> environment ->
list of serial numbers (database_certs.json). -/
abbrev LedgerP := List (String × List (String × List String))

abbrev Ledger := List (String × LedgerP)

/-- Per-policy environment contents: environment name -> certificates. -/
abbrev EnvContent := List (String × List CertRec)

/-- The batches built by create_JIRA_tickets: expiry month ->
environment -> list of (not_after, serial, issuer). -/
abbrev Batches := List (Int × List (String × List (DateTime × String × String)))

/-- Errors raised by the Python runtime in the modelled paths. -/
inductive PyError where
  | typeError
  | fileNotFound
  | nameError
deriving DecidableEq

/-- The nested loop over environment_content.items() and the certificates
of each environment, flattened in iteration order. -/
def envCertPairs (ec : EnvContent) : List (String × CertRec) :=
  ec.flatMap (fun p => p.2.map (fun c => (p.1, c)))

/-- The key f-string month_converter(month)/year computed from a
certificate's not_after. -/
def dateKeyD (na : DateTime) : String :=
  month_converter na.date.month ++ ("/") ++ toString na.date.year

def dateKey (c : CertRec) : String := dateKeyD c.not_after

/-- The dedup test of create_JIRA_tickets lines 462-467: the serial is
already recorded under this policy, month/year key and environment. -/
def ledgered (data : Ledger) (Policy dk env serial : String) : Bool :=
  match alookup data Policy with
  | none => false
  | some pd =>
    match alookup pd dk with
    | none => false
    | some ed =>
      match alookup ed env with
      | none => false
      | some ls => ls.contains serial

/-- One iteration of the batch-building loop of create_JIRA_tickets
(lines 456-468): skip ledgered serials, group the rest by expiry month and
environment (months_cert is a defaultdict of defaultdict of list). -/
def ticketStep (data : Ledger) (Policy : String) (acc : Batches) (pc : String × CertRec) : Batches :=
  let env := pc.1
  let c := pc.2
  if ledgered data Policy (dateKey c) env c.serial_number then acc
  else
    upsert c.not_after.date.month
      (fun eb => upsert env (fun l => l.getD [] ++ [(c.not_after, c.serial_number, c.issuer)]) (eb.getD []))
      acc

/-- create_JIRA_tickets (lines 433-472): opens the ledger file with no
FileNotFoundError handling (line 452), then groups the un-ledgered
certificates of one policy by expiry month.  A missing ledger file raises. -/
def create_JIRA_tickets (Policy : String) (environment_content : EnvContent)
    (db : Option Ledger) : Except PyError Batches :=
  match db with
  | none => Except.error PyError.fileNotFound
  | some data =>
    Except.ok ((envCertPairs environment_content).foldl (ticketStep data Policy) [])

/-- One iteration of the ledger-update loop of database_updater
(lines 419-425): data.setdefault(date, {}).setdefault(env, []).append(serial). -/
def duStep (acc : LedgerP) (pc : String × CertRec) : LedgerP :=
  upsert (dateKey pc.2)
    (fun ed => upsert pc.1 (fun l => l.getD [] ++ [pc.2.serial_number]) (ed.getD []))
    acc

/-- database_updater (lines 401-429): load the whole ledger (missing file
means empty, lines 412-416), take this policy's sub-record, append every
certificate's serial under its month/year and environment, store the
sub-record back and rewrite the whole file. -/
def database_updater (Policy : String) (environment_content : EnvContent)
    (db : Option Ledger) : Ledger :=
  let data_all := db.getD []
  let data := (alookup data_all Policy).getD []
  let data2 := (envCertPairs environment_content).foldl duStep data
  upsert Policy (fun _ => data2) data_all

/-- The per-sub-policy tail of create_output_file (lines 594-595):
create_JIRA_tickets runs first, on the ledger as read from disk, and only
then database_updater rewrites the ledger. -/
def unitLedgerStep (Policy : String) (ec : EnvContent) (db : Option Ledger) :
    Except PyError (Batches × Ledger) :=
  match create_JIRA_tickets Policy ec db with
  | Except.error e => Except.error e
  | Except.ok B => Except.ok (B, database_updater Policy ec db)

/-- Python str.startswith, as a prefix test on the character sequence. -/
def strStartsWith (s pre : String) : Bool := pre.data.isPrefixOf s.data

/-- Python str.endswith, as a suffix test on the character sequence. -/
def strEndsWith (s suf : String) : Bool := suf.data.isSuffixOf s.data

/-- xml_path_for_Cert (lines 274-294): first non-META top-level directory,
then first file named Cert*.xml inside it; an IndexError at either level is
caught and None is returned.  The directory listings are abstracted as the
listing of the unpacked folder and a listing function for its
subdirectories; the returned pair stands for the joined path. -/
def xml_path_for_Cert (listing : List String) (sub_listing : String → List String) :
    Option (String × String) :=
  match (listing.filter (fun x => !(strStartsWith x ("META")))).head? with
  | none => none
  | some sub =>
    match ((sub_listing sub).filter
        (fun x => strStartsWith x ("Cert") && strEndsWith x (".xml"))).head? with
    | none => none
    | some cert => some (sub, cert)

/-- A child node of an entity element in the manifest.  textNode stands for
any node whose attribute access raises (attributes is None or has no name);
elem nm payload is an element with name attribute nm, where payload none
models a node with no child (IndexError), some none a child with no
firstChild (AttributeError), and some (some s) a text payload s. -/
inductive XChild where
  | textNode : XChild
  | elem : String → Option (Option String) → XChild
deriving DecidableEq

/-- An entity element of the manifest: its type attribute and children. -/
structure XEntity where
  typ : String
  children : List XChild
deriving DecidableEq

/-- The inner child loop of parse_xml_for_certs (lines 334-348): each
child is tried; any exception is swallowed and the loop continues; on the
first successfully decoded content payload the loop breaks, contributing
the record when it qualifies.  decode abstracts create_pem_file plus
parse_cert on the payload (none models a ValueError). -/
def scanChildren (decode : String → Option X509) (today : Date) : List XChild → Option CertRec
  | [] => none
  | XChild.textNode :: rest => scanChildren decode today rest
  | XChild.elem nm payload :: rest =>
    if nm = ("content") then
      match payload with
      | some (some s) =>
        (match decode s with
         | some x =>
           let r := parse_cert x
           if is_within_three_months r.not_after today then some r else none
         | none => scanChildren decode today rest)
      | _ => scanChildren decode today rest
    else scanChildren decode today rest

/-- The contribution of one entity element to the container list of
parse_xml_for_certs. -/
def xmlStep (decode : String → Option X509) (today : Date)
    (acc : List CertRec) (m : XEntity) : List CertRec :=
  if m.typ = ("Certificate") then
    match scanChildren decode today m.children with
    | some r => acc ++ [r]
    | none => acc
  else acc

/-- parse_xml_for_certs (lines 315-351): walk the entity elements, process
those of type Certificate, and collect the qualifying records in order. -/
def parse_xml_for_certs (decode : String → Option X509) (today : Date)
    (entities : List XEntity) : List CertRec :=
  entities.foldl (xmlStep decode today) []

/-- A child of a Certificate entity that cannot yield a decoded
certificate: text node, wrong name, missing or empty payload, or payload
the decoder rejects. -/
def childNoCert (decode : String → Option X509) : XChild → Bool
  | XChild.textNode => true
  | XChild.elem nm payload =>
    if nm = ("content") then
      (match payload with
       | some (some s) => (decode s).isNone
       | _ => true)
    else true

/-- An environment archive file named Policy_Environment.env; the split on
line 576 recovers the two components. -/
structure EnvFile where
  pol : String
  env : String
deriving DecidableEq

/-- A line of the report file: the three header levels and the
per-certificate line. -/
inductive Line where
  | policy : String → Line
  | sub : String → Line
  | env : EnvFile → Line
  | cert : CertRec → Line
deriving DecidableEq

/-- The policy tree built by get_all_folder_paths: policy -> sub-policy ->
environment files. -/
abbrev Tree := List (String × List (String × List EnvFile))

/-- State threaded through create_output_file: the pending unflushed header
lines (holder), the report file contents (out, opened in append mode), the
zones set, the ledger file (none when absent), the batches handed to the
ticket code, the current value of the Python variable Policy, and the
pending exception if one was raised. -/
structure OState where
  holder : List Line
  out : List Line
  zones : List String
  db : Option Ledger
  tickets : List Batches
  lastPol : Option String
  err : Option PyError

/-- The body of the innermost loop of create_output_file (lines 569-593):
push the environment header, parse the archive (abstracted by the given
container), record the environment content, then either flush the whole
holder followed by the certificate lines, or pop the environment header. -/
def processEnvStep (container_of : String → String → EnvFile → List CertRec)
    (entry ent : String) (st : OState × EnvContent) (e : EnvFile) : OState × EnvContent :=
  let s := st.1
  let holder2 := s.holder ++ [Line.env e]
  let container := container_of entry ent e
  let ec2 := upsert e.env (fun _ => container) st.2
  let s2 := { s with lastPol := some e.pol }
  if container.isEmpty then ({ s2 with holder := holder2.dropLast }, ec2)
  else ({ s2 with holder := [], out := s.out ++ holder2 ++ container.map Line.cert }, ec2)

/-- The sub-policy loop body of create_output_file (lines 566-597): push
the sub-policy header, run the environment loop, call create_JIRA_tickets
then database_updater (an exception aborts the call), and pop the
sub-policy header when it is still the unflushed top of the holder. -/
def processSub (container_of : String → String → EnvFile → List CertRec)
    (entry : String) (st : OState) (sub : String × List EnvFile) : OState :=
  if st.err.isSome then st
  else
    let stA := { st with holder := st.holder ++ [Line.sub sub.1] }
    let r := sub.2.foldl (processEnvStep container_of entry sub.1) (stA, [])
    let st1 := r.1
    match st1.lastPol with
    | none => { st1 with err := some PyError.nameError }
    | some P =>
      match unitLedgerStep P r.2 st1.db with
      | Except.error e2 => { st1 with err := some e2 }
      | Except.ok BL =>
        let st2 := { st1 with tickets := st1.tickets ++ [BL.1], db := some BL.2 }
        if st2.holder.getLast? = some (Line.sub sub.1) then
          { st2 with holder := st2.holder.dropLast }
        else st2

/-- The policy loop body of create_output_file (lines 561-599): skip
policies already in zones, push the policy header and add the policy to
zones, run the sub-policy loop, and pop the policy header when it is still
the unflushed top of the holder. -/
def processEntry (container_of : String → String → EnvFile → List CertRec)
    (st : OState) (entry : String × List (String × List EnvFile)) : OState :=
  if st.err.isSome then st
  else if entry.1 ∈ st.zones then st
  else
    let stA := { st with holder := st.holder ++ [Line.policy entry.1],
                         zones := st.zones ++ [entry.1] }
    let st1 := entry.2.foldl (processSub container_of entry.1) stA
    if st1.err.isSome then st1
    else if st1.holder.getLast? = some (Line.policy entry.1) then
      { st1 with holder := st1.holder.dropLast }
    else st1

/-- create_output_file (lines 549-599).  The report file is opened in
append mode, so the incoming out is extended; holder and the Python
variable Policy are local to the call.  container_of abstracts the
unzip, xml_path_for_Cert and parse_xml_for_certs chain for one
environment file. -/
def create_output_file (container_of : String → String → EnvFile → List CertRec)
    (tree : Tree) (st : OState) : OState :=
  tree.foldl (processEntry container_of) { st with holder := [], lastPol := none }

/-- Fresh run state: empty report file, given zones set and ledger file. -/
def initState (zones0 : List String) (db0 : Option Ledger) : OState :=
  ⟨[], [], zones0, db0, [], none, none⟩

/-- delete_file_in_directory (lines 537-545): both parameters are required
positional parameters with no default; a call that does not supply both
raises TypeError, modelled by Option-valued arguments. -/
def delete_file_in_directory (directory : Option String) (file_name : Option String) :
    Except PyError Unit :=
  match directory, file_name with
  | some _, some _ => Except.ok ()
  | _, _ => Except.error PyError.typeError

/-- main (lines 626-652): after reading the configuration and the versions,
line 643 calls delete_file_in_directory with no arguments, then the version
loop would run create_output_file per version with the shared zones set. -/
def main (versions : List String) (repo_of : String → Tree)
    (container_of : String → String → EnvFile → List CertRec)
    (db0 : Option Ledger) : Except PyError OState :=
  match delete_file_in_directory none none with
  | Except.error e => Except.error e
  | Except.ok _ =>
    Except.ok (versions.foldl
      (fun st v => if st.err.isSome then st else create_output_file container_of (repo_of v) st)
      (initState [] db0))

/-- Line classified as a certificate line. -/
def isCert : Line → Bool
  | Line.cert _ => true
  | _ => false

/-- Line classified as a policy header. -/
def isPolicyLine : Line → Bool
  | Line.policy _ => true
  | _ => false

/-- Line classified as a policy or sub-policy header. -/
def isPolicyOrSubLine : Line → Bool
  | Line.policy _ => true
  | Line.sub _ => true
  | _ => false

/-- Some certificate line appears before the first line satisfying stop. -/
def hasCertBefore (stop : Line → Bool) : List Line → Bool
  | [] => false
  | l :: ls => if isCert l then true else if stop l then false else hasCertBefore stop ls

/-- The no-empty-header property of the report: every policy header is
followed by a certificate line before the next policy header, and every
sub-policy header by a certificate line before the next policy or
sub-policy header. -/
def goodLines : List Line → Bool
  | [] => true
  | Line.policy _ :: ls => hasCertBefore isPolicyLine ls && goodLines ls
  | Line.sub _ :: ls => hasCertBefore isPolicyOrSubLine ls && goodLines ls
  | _ :: ls => goodLines ls

/-- Head of the list is a sub-policy header. -/
def headIsSub : List Line → Bool
  | Line.sub _ :: _ => true
  | _ => false

/-- Head of the list is an environment header. -/
def headIsEnv : List Line → Bool
  | Line.env _ :: _ => true
  | _ => false

/-- Head of the list is a certificate line. -/
def headIsCert : List Line → Bool
  | Line.cert _ :: _ => true
  | _ => false

/-- Structural well-formedness of the emitted report: a policy header is
immediately followed by a sub-policy header, a sub-policy header by an
environment header, an environment header by a certificate line. -/
def wfL : List Line → Bool
  | [] => true
  | Line.policy _ :: ls => headIsSub ls && wfL ls
  | Line.sub _ :: ls => headIsEnv ls && wfL ls
  | Line.env _ :: ls => headIsCert ls && wfL ls
  | Line.cert _ :: ls => wfL ls

/-- The report either is empty or ends in a certificate line. -/
def endsCert (l : List Line) : Bool :=
  match l.getLast? with
  | none => true
  | some x => isCert x

lemma dateLt_self (d : Date) : dateLt d d = false := by
  simp [dateLt]

lemma addMonths_zero (d : Date) (h : d.Valid) : addMonths d 0 = d := by
  obtain ⟨h1, h2, h3, h4⟩ := h
  unfold addMonths
  have hy : (d.year * 12 + (d.month - 1) + 0) / 12 = d.year := by omega
  have hm : (d.year * 12 + (d.month - 1) + 0) % 12 + 1 = d.month := by omega
  simp only [hy, hm]
  have hmin : min d.day (daysInMonth d.year d.month) = d.day := min_eq_left h4
  rw [hmin]

lemma rdLoop_succ (dt1 dt2 : Date) (f : Nat) (m : Int) :
    rdLoop dt1 dt2 (Nat.succ f) m =
      (let dtm := addMonths dt2 m
       if dateLt dt1 dt2 then
         (if dateLt dtm dt1 then rdLoop dt1 dt2 f (m + 1) else m)
       else
         (if dateLt dt1 dtm then rdLoop dt1 dt2 f (m - 1) else m)) := rfl

lemma rdLoop_stay (dt1 dt2 : Date) (f : Nat) (m : Int)
    (hges : dateLt dt1 dt2 = false) (hnlt : dateLt dt1 (addMonths dt2 m) = false) :
    rdLoop dt1 dt2 (Nat.succ f) m = m := by
  rw [rdLoop_succ]
  simp [hges, hnlt]

lemma rdLoop_self_zero (d : Date) (h : d.Valid) : rdLoop d d 100 0 = 0 := by
  have h100 : (100 : Nat) = Nat.succ 99 := rfl
  rw [h100]
  exact rdLoop_stay d d 99 0 (dateLt_self d) (by rw [addMonths_zero d h]; exact dateLt_self d)

lemma relativedelta_self (d : Date) (h : d.Valid) : relativedelta d d = ⟨0, 0, 0⟩ := by
  unfold relativedelta
  dsimp only
  have h0 : (d.year - d.year) * 12 + (d.month - d.month) = 0 := by ring
  rw [h0, rdLoop_self_zero d h, addMonths_zero d h]
  simp

lemma is_within_three_months_today (today : Date) (sod : Int) (h : today.Valid) :
    is_within_three_months ⟨today, sod⟩ today = true := by
  unfold is_within_three_months
  dsimp only
  rw [relativedelta_self today h]
  rfl

section AListLemmas

variable {α : Type} {β : Type} [DecidableEq α]

lemma alookup_upsert_self (k : α) (f : Option β → β) (l : List (α × β)) :
    alookup (upsert k f l) k = some (f (alookup l k)) := by
  induction l with
  | nil => simp [upsert, alookup]
  | cons p t ih =>
    obtain ⟨k2, v⟩ := p
    by_cases hk : k2 = k
    · subst hk; simp [upsert, alookup]
    · simp [upsert, alookup, hk, ih]

lemma alookup_upsert_ne (k q : α) (f : Option β → β) (l : List (α × β)) (h : q ≠ k) :
    alookup (upsert k f l) q = alookup l q := by
  induction l with
  | nil => simp [upsert, alookup, Ne.symm h]
  | cons p t ih =>
    obtain ⟨k2, v⟩ := p
    by_cases hk : k2 = k
    · subst hk
      simp [upsert, alookup, Ne.symm h]
    · simp only [upsert, if_neg hk]
      simp only [alookup]
      by_cases hq : k2 = q
      · simp [hq]
      · simp [hq, ih]

lemma mem_upsert_elim (k : α) (f : Option β → β) (l : List (α × β)) (x : α × β)
    (h : x ∈ upsert k f l) : x ∈ l ∨ x = (k, f (alookup l k)) := by
  induction l with
  | nil =>
    simp [upsert] at h
    right
    simp [alookup, h]
  | cons p t ih =>
    obtain ⟨k2, v⟩ := p
    by_cases hk : k2 = k
    · subst hk
      simp [upsert, alookup] at h ⊢
      rcases h with h | h
      · right; simp [h]
      · left; right; exact h
    · simp [upsert, hk] at h
      rcases h with h | h
      · left; simp [h]
      · rcases ih h with h2 | h2
        · left; simp [h2]
        · right; simpa [alookup, hk] using h2

/-- Keys of an association list, in order. -/
def keysOf (l : List (α × β)) : List α := l.map Prod.fst

lemma mem_keysOf_upsert (k q : α) (f : Option β → β) (l : List (α × β)) :
    q ∈ keysOf (upsert k f l) ↔ q ∈ keysOf l ∨ q = k := by
  induction l with
  | nil => simp [upsert, keysOf]
  | cons p t ih =>
    obtain ⟨k2, v⟩ := p
    by_cases hk : k2 = k
    · subst hk
      simp [upsert, keysOf]
      tauto
    · simp [upsert, keysOf, hk] at ih ⊢
      tauto

lemma nodup_keysOf_upsert (k : α) (f : Option β → β) (l : List (α × β))
    (h : (keysOf l).Nodup) : (keysOf (upsert k f l)).Nodup := by
  induction l with
  | nil => simp [upsert, keysOf]
  | cons p t ih =>
    obtain ⟨k2, v⟩ := p
    simp only [keysOf, List.map_cons, List.nodup_cons] at h
    by_cases hk : k2 = k
    · subst hk
      simp only [upsert, eq_self_iff_true, if_true]
      simp only [keysOf, List.map_cons, List.nodup_cons]
      exact h
    · simp only [upsert, if_neg hk]
      simp only [keysOf, List.map_cons, List.nodup_cons]
      refine ⟨?_, ih h.2⟩
      intro hmem
      have hmem2 : k2 ∈ keysOf (upsert k f t) := hmem
      rcases (mem_keysOf_upsert k k2 f t).mp hmem2 with h2 | h2
      · exact h.1 h2
      · exact hk h2

lemma alookup_mem (l : List (α × β)) (k : α) (v : β) (h : alookup l k = some v) :
    (k, v) ∈ l := by
  induction l with
  | nil => simp [alookup] at h
  | cons p t ih =>
    obtain ⟨k2, w⟩ := p
    by_cases hk : k2 = k
    · subst hk
      simp [alookup] at h
      simp [h]
    · simp [alookup, hk] at h
      simp [ih h]

end AListLemmas

/-- The serial list stored under one policy, month/year key and
environment of a policy sub-record. -/
def bucketP (d : LedgerP) (dk env : String) : Option (List String) :=
  (alookup d dk).bind (fun ed => alookup ed env)

/-- The serial list stored under one policy, month/year key and
environment of the whole ledger. -/
def bucket (L : Ledger) (P dk env : String) : Option (List String) :=
  (alookup L P).bind (fun pd => bucketP pd dk env)

/-- The serials that the update loop appends into one month/year and
environment bucket, in iteration order. -/
def addedSerials (ps : List (String × CertRec)) (dk env : String) : List String :=
  ps.filterMap (fun pc =>
    if pc.1 = env ∧ dateKey pc.2 = dk then some pc.2.serial_number else none)

lemma duStep_bucket_match (d : LedgerP) (pc : String × CertRec) :
    bucketP (duStep d pc) (dateKey pc.2) pc.1 =
      some ((bucketP d (dateKey pc.2) pc.1).getD [] ++ [pc.2.serial_number]) := by
  unfold duStep bucketP
  rw [alookup_upsert_self]
  simp only [Option.some_bind]
  rw [alookup_upsert_self]
  cases h : alookup d (dateKey pc.2) with
  | none => simp [h, alookup]
  | some ed => simp [h]

lemma duStep_bucket_miss (d : LedgerP) (pc : String × CertRec) (dk env : String)
    (h : ¬(dk = dateKey pc.2 ∧ env = pc.1)) :
    bucketP (duStep d pc) dk env = bucketP d dk env := by
  unfold duStep bucketP
  by_cases hdk : dk = dateKey pc.2
  · have henv : env ≠ pc.1 := fun he => h ⟨hdk, he⟩
    rw [hdk, alookup_upsert_self]
    simp only [Option.some_bind]
    rw [alookup_upsert_ne _ _ _ _ henv]
    cases h2 : alookup d (dateKey pc.2) with
    | none => simp [h2, alookup]
    | some ed => simp [h2]
  · rw [alookup_upsert_ne _ _ _ _ hdk]

lemma duFold_bucket (ps : List (String × CertRec)) :
    ∀ (d : LedgerP) (dk env : String),
    bucketP (ps.foldl duStep d) dk env =
      (if addedSerials ps dk env = [] then bucketP d dk env
       else some ((bucketP d dk env).getD [] ++ addedSerials ps dk env)) := by
  induction ps with
  | nil => intro d dk env; simp [addedSerials]
  | cons pc ps ih =>
    intro d dk env
    rw [List.foldl_cons]
    by_cases hm : dk = dateKey pc.2 ∧ env = pc.1
    · obtain ⟨h1, h2⟩ := hm
      have hadd : addedSerials (pc :: ps) dk env = pc.2.serial_number :: addedSerials ps dk env := by
        simp [addedSerials, h1, h2]
      have hstep : bucketP (duStep d pc) dk env =
          some ((bucketP d dk env).getD [] ++ [pc.2.serial_number]) := by
        rw [h1, h2]
        exact duStep_bucket_match d pc
      rw [ih (duStep d pc) dk env, hadd, hstep]
      by_cases he : addedSerials ps dk env = []
      · simp [he]
      · simp [he]
    · have hadd : addedSerials (pc :: ps) dk env = addedSerials ps dk env := by
        simp only [addedSerials, List.filterMap_cons]
        have : ¬(pc.1 = env ∧ dateKey pc.2 = dk) := fun ⟨a, b⟩ => hm ⟨b.symm, a.symm⟩
        simp [this]
      rw [ih (duStep d pc) dk env, hadd, duStep_bucket_miss d pc dk env hm]

lemma bucketP_getD_alookup (L : Ledger) (P dk env : String) :
    bucketP ((alookup L P).getD []) dk env = bucket L P dk env := by
  cases h : alookup L P with
  | none => simp [h, bucket, bucketP, alookup]
  | some pd => simp [h, bucket]

lemma bucket_database_updater (db : Option Ledger) (P : String) (ec : EnvContent)
    (dk env : String) :
    bucket (database_updater P ec db) P dk env =
      (if addedSerials (envCertPairs ec) dk env = [] then bucket (db.getD []) P dk env
       else some ((bucket (db.getD []) P dk env).getD [] ++ addedSerials (envCertPairs ec) dk env)) := by
  unfold database_updater
  dsimp only
  unfold bucket
  rw [alookup_upsert_self]
  simp only [Option.some_bind]
  rw [duFold_bucket (envCertPairs ec) ((alookup (db.getD []) P).getD []) dk env]
  rw [bucketP_getD_alookup]
  rfl

lemma alookup_database_updater_ne (db : Option Ledger) (P q : String) (ec : EnvContent)
    (h : q ≠ P) :
    alookup (database_updater P ec db) q = alookup (db.getD []) q := by
  unfold database_updater
  dsimp only
  exact alookup_upsert_ne P q _ (db.getD []) h

lemma ticketFold_keys_nodup (data : Ledger) (P : String) (ps : List (String × CertRec)) :
    ∀ acc : Batches, (keysOf acc).Nodup → (keysOf (ps.foldl (ticketStep data P) acc)).Nodup := by
  induction ps with
  | nil => intro acc h; simpa using h
  | cons pc ps ih =>
    intro acc h
    rw [List.foldl_cons]
    apply ih
    unfold ticketStep
    by_cases hl : ledgered data P (dateKey pc.2) pc.1 pc.2.serial_number
    · simpa [hl] using h
    · simp only [hl, if_false, Bool.false_eq_true]
      exact nodup_keysOf_upsert _ _ _ h

lemma ticketFold_mem_keys (data : Ledger) (P : String) (ps : List (String × CertRec)) :
    ∀ (acc : Batches) (m : Int),
    m ∈ keysOf (ps.foldl (ticketStep data P) acc) ↔
      m ∈ keysOf acc ∨ ∃ pc, pc ∈ ps ∧
        ledgered data P (dateKey pc.2) pc.1 pc.2.serial_number = false ∧
        pc.2.not_after.date.month = m := by
  induction ps with
  | nil => intro acc m; simp
  | cons pc ps ih =>
    intro acc m
    rw [List.foldl_cons, ih]
    unfold ticketStep
    by_cases hl : ledgered data P (dateKey pc.2) pc.1 pc.2.serial_number
    · simp only [hl, if_true]
      constructor
      · rintro (h | h)
        · exact Or.inl h
        · exact Or.inr (by rcases h with ⟨pc2, h1, h2, h3⟩; exact ⟨pc2, List.mem_cons_of_mem _ h1, h2, h3⟩)
      · rintro (h | ⟨pc2, h1, h2, h3⟩)
        · exact Or.inl h
        · rcases List.mem_cons.mp h1 with h4 | h4
          · subst h4; rw [hl] at h2; cases h2
          · exact Or.inr ⟨pc2, h4, h2, h3⟩
    · simp only [hl, if_false, Bool.false_eq_true]
      constructor
      · rintro (h | h)
        · rcases (mem_keysOf_upsert _ _ _ _).mp h with h2 | h2
          · exact Or.inl h2
          · exact Or.inr ⟨pc, List.mem_cons_self pc ps,
              by simpa using hl, h2.symm⟩
        · exact Or.inr (by rcases h with ⟨pc2, h1, h2, h3⟩; exact ⟨pc2, List.mem_cons_of_mem _ h1, h2, h3⟩)
      · rintro (h | ⟨pc2, h1, h2, h3⟩)
        · exact Or.inl ((mem_keysOf_upsert _ _ _ _).mpr (Or.inl h))
        · rcases List.mem_cons.mp h1 with h4 | h4
          · subst h4
            exact Or.inl ((mem_keysOf_upsert _ _ _ _).mpr (Or.inr h3.symm))
          · exact Or.inr ⟨pc2, h4, h2, h3⟩

/-- Every triple in every batch is for a serial that was not already in the
ledger under this policy, its month/year key and its environment. -/
def batchOK (data : Ledger) (P : String) (B : Batches) : Prop :=
  ∀ meb ∈ B, ∀ el ∈ meb.2, ∀ t ∈ el.2,
    ledgered data P (dateKeyD t.1) el.1 t.2.1 = false

lemma batchOK_nil (data : Ledger) (P : String) : batchOK data P [] := by
  intro meb h
  cases h

lemma ticketStep_ok (data : Ledger) (P : String) (acc : Batches) (pc : String × CertRec)
    (h : batchOK data P acc) : batchOK data P (ticketStep data P acc pc) := by
  unfold ticketStep
  by_cases hl : ledgered data P (dateKey pc.2) pc.1 pc.2.serial_number
  · simpa [hl] using h
  · simp only [hl, if_false, Bool.false_eq_true]
    intro meb hmeb el hel t ht
    rcases mem_upsert_elim _ _ _ _ hmeb with hin | heq
    · exact h meb hin el hel t ht
    · subst heq
      simp only at hel
      rcases mem_upsert_elim _ _ _ _ hel with hin2 | heq2
      · cases hb : alookup acc pc.2.not_after.date.month with
        | none => rw [hb] at hin2; cases hin2
        | some eb0 =>
          rw [hb] at hin2
          exact h _ (alookup_mem _ _ _ hb) el hin2 t ht
      · subst heq2
        simp only at ht
        rcases List.mem_append.mp ht with ht1 | ht2
        · cases hb : alookup acc pc.2.not_after.date.month with
          | none =>
            rw [hb] at ht1
            simp [alookup] at ht1
          | some eb0 =>
            rw [hb] at ht1
            simp only [Option.getD_some] at ht1
            cases hbe : alookup eb0 pc.1 with
            | none => rw [hbe] at ht1; cases ht1
            | some l0 =>
              rw [hbe] at ht1
              simp only [Option.getD_some] at ht1
              exact h _ (alookup_mem _ _ _ hb) _ (alookup_mem _ _ _ hbe) t ht1
        · have : t = (pc.2.not_after, pc.2.serial_number, pc.2.issuer) := by
            simpa using ht2
          subst this
          simpa [dateKey, Bool.not_eq_true] using hl

lemma ticketFold_ok (data : Ledger) (P : String) (ps : List (String × CertRec)) :
    ∀ acc : Batches, batchOK data P acc → batchOK data P (ps.foldl (ticketStep data P) acc) := by
  induction ps with
  | nil => intro acc h; simpa using h
  | cons pc ps ih =>
    intro acc h
    rw [List.foldl_cons]
    exact ih _ (ticketStep_ok data P acc pc h)

lemma scanChildren_none (decode : String → Option X509) (today : Date) :
    ∀ children : List XChild, (∀ c ∈ children, childNoCert decode c = true) →
    scanChildren decode today children = none := by
  intro children
  induction children with
  | nil => intro _; rfl
  | cons c rest ih =>
    intro h
    have hc := h c (List.mem_cons_self c rest)
    have hrest : ∀ x ∈ rest, childNoCert decode x = true :=
      fun x hx => h x (List.mem_cons_of_mem c hx)
    cases c with
    | textNode => simpa [scanChildren] using ih hrest
    | elem nm payload =>
      by_cases hnm : nm = ("content")
      · cases payload with
        | none => simpa [scanChildren, hnm] using ih hrest
        | some po =>
          cases po with
          | none => simpa [scanChildren, hnm] using ih hrest
          | some s =>
            have hdec : decode s = none := by
              simpa [childNoCert, hnm, Option.isNone_iff_eq_none] using hc
            simpa [scanChildren, hnm, hdec] using ih hrest
      · simpa [scanChildren, hnm] using ih hrest

lemma xmlStep_acc (decode : String → Option X509) (today : Date)
    (acc : List CertRec) (m : XEntity) :
    xmlStep decode today acc m = acc ++ xmlStep decode today [] m := by
  unfold xmlStep
  by_cases h : m.typ = ("Certificate")
  · simp only [h, if_true]
    cases scanChildren decode today m.children <;> simp
  · simp [h]

lemma xmlFold_acc (decode : String → Option X509) (today : Date) (l : List XEntity) :
    ∀ acc : List CertRec,
    l.foldl (xmlStep decode today) acc = acc ++ l.foldl (xmlStep decode today) [] := by
  induction l with
  | nil => intro acc; simp
  | cons x l ih =>
    intro acc
    rw [List.foldl_cons, List.foldl_cons, ih (xmlStep decode today acc x),
      ih (xmlStep decode today [] x), xmlStep_acc decode today acc x, List.append_assoc]

lemma parse_xml_append (decode : String → Option X509) (today : Date) (a b : List XEntity) :
    parse_xml_for_certs decode today (a ++ b) =
      parse_xml_for_certs decode today a ++ parse_xml_for_certs decode today b := by
  unfold parse_xml_for_certs
  rw [List.foldl_append]
  exact xmlFold_acc decode today b _

lemma headIsSub_append (l m : List Line) (h : l ≠ []) : headIsSub (l ++ m) = headIsSub l := by
  cases l with
  | nil => exact absurd rfl h
  | cons x xs => cases x <;> rfl

lemma headIsEnv_append (l m : List Line) (h : l ≠ []) : headIsEnv (l ++ m) = headIsEnv l := by
  cases l with
  | nil => exact absurd rfl h
  | cons x xs => cases x <;> rfl

lemma headIsCert_append (l m : List Line) (h : l ≠ []) : headIsCert (l ++ m) = headIsCert l := by
  cases l with
  | nil => exact absurd rfl h
  | cons x xs => cases x <;> rfl

lemma endsCert_cons_cons (x y : Line) (l : List Line) :
    endsCert (x :: y :: l) = endsCert (y :: l) := by
  unfold endsCert
  rw [List.getLast?_cons_cons]

lemma wf_append : ∀ a b : List Line, wfL a = true → endsCert a = true → wfL b = true →
    wfL (a ++ b) = true := by
  intro a
  induction a with
  | nil => intro b _ _ hb; simpa using hb
  | cons x xs ih =>
    intro b ha he hb
    cases xs with
    | nil =>
      cases x with
      | policy p => simp [wfL, headIsSub] at ha
      | sub s => simp [wfL, headIsEnv] at ha
      | env e => simp [wfL, headIsCert] at ha
      | cert c => simpa [wfL] using hb
    | cons y ys =>
      have he2 : endsCert (y :: ys) = true := by
        rw [← endsCert_cons_cons x y ys]; exact he
      have hne : (y :: ys) ≠ ([] : List Line) := by simp
      cases x with
      | policy p =>
        simp only [wfL, Bool.and_eq_true] at ha
        have hg := ih b ha.2 he2 hb
        simp only [List.cons_append, wfL, Bool.and_eq_true]
        exact ⟨(headIsSub_append (y :: ys) b hne).trans ha.1, hg⟩
      | sub s =>
        simp only [wfL, Bool.and_eq_true] at ha
        have hg := ih b ha.2 he2 hb
        simp only [List.cons_append, wfL, Bool.and_eq_true]
        exact ⟨(headIsEnv_append (y :: ys) b hne).trans ha.1, hg⟩
      | env e =>
        simp only [wfL, Bool.and_eq_true] at ha
        have hg := ih b ha.2 he2 hb
        simp only [List.cons_append, wfL, Bool.and_eq_true]
        exact ⟨(headIsCert_append (y :: ys) b hne).trans ha.1, hg⟩
      | cert c =>
        simp only [wfL] at ha
        have hg := ih b ha he2 hb
        simpa [wfL] using hg

lemma wf_cert_list : ∀ l : List CertRec, wfL (l.map Line.cert) = true := by
  intro l
  induction l with
  | nil => rfl
  | cons c cs ih => simpa [wfL] using ih

lemma endsCert_map_cert_cons : ∀ (cs : List CertRec) (c : CertRec),
    endsCert (Line.cert c :: cs.map Line.cert) = true := by
  intro cs
  induction cs with
  | nil => intro c; rfl
  | cons c2 cs ih =>
    intro c
    rw [show (Line.cert c :: (c2 :: cs).map Line.cert) =
      Line.cert c :: Line.cert c2 :: cs.map Line.cert from rfl]
    rw [endsCert_cons_cons]
    exact ih c2

lemma exists_getLast?_cons (x : Line) (l : List Line) : ∃ z, (x :: l).getLast? = some z := by
  induction l generalizing x with
  | nil => exact ⟨x, rfl⟩
  | cons y ys ih => rw [List.getLast?_cons_cons]; exact ih y

lemma endsCert_append (a b : List Line) (hb : endsCert b = true) (hne : b ≠ []) :
    endsCert (a ++ b) = true := by
  cases b with
  | nil => exact absurd rfl hne
  | cons y ys =>
    obtain ⟨z, hz⟩ := exists_getLast?_cons y ys
    unfold endsCert at hb ⊢
    rw [hz] at hb
    rw [List.getLast?_append, hz]
    simpa using hb

/-- The shapes the unflushed holder can take when a certificate container
is flushed: nothing pending, a pending sub-policy header, or a pending
policy header followed by a pending sub-policy header. -/
def ChunkBase (h0 : List Line) : Prop :=
  h0 = [] ∨ (∃ s, h0 = [Line.sub s]) ∨ (∃ p s, h0 = [Line.policy p, Line.sub s])

lemma wf_chunk (h0 : List Line) (e : EnvFile) (container : List CertRec)
    (hs : ChunkBase h0) (hc : container ≠ []) :
    wfL ((h0 ++ [Line.env e]) ++ container.map Line.cert) = true := by
  cases container with
  | nil => exact absurd rfl hc
  | cons c cs =>
    rcases hs with h | ⟨s, h⟩ | ⟨p, s, h⟩ <;> subst h <;>
      simp [wfL, headIsSub, headIsEnv, headIsCert, wf_cert_list]

/-- The holder shapes possible while the environment loop of one
sub-policy runs: the holder as pushed at the start of the sub-policy, or
empty after a flush. -/
def HolderS (ent : String) (h : List Line) : Prop :=
  h = [Line.sub ent] ∨ ∃ p, h = [Line.policy p, Line.sub ent]

lemma processEnvStep_inv (co : String → String → EnvFile → List CertRec)
    (entry ent : String) (h0 : List Line) (hs : HolderS ent h0)
    (st : OState) (ec : EnvContent) (e : EnvFile)
    (hh : st.holder = h0 ∨ st.holder = []) (hw : wfL st.out = true)
    (he : endsCert st.out = true) :
    ((processEnvStep co entry ent (st, ec) e).1.holder = h0 ∨
      (processEnvStep co entry ent (st, ec) e).1.holder = []) ∧
    wfL (processEnvStep co entry ent (st, ec) e).1.out = true ∧
    endsCert (processEnvStep co entry ent (st, ec) e).1.out = true ∧
    (processEnvStep co entry ent (st, ec) e).1.err = st.err ∧
    (processEnvStep co entry ent (st, ec) e).1.zones = st.zones ∧
    (processEnvStep co entry ent (st, ec) e).1.db = st.db ∧
    (processEnvStep co entry ent (st, ec) e).1.tickets = st.tickets := by
  unfold processEnvStep
  dsimp only
  by_cases hce : (co entry ent e).isEmpty
  · simp only [hce, if_true]
    refine ⟨?_, hw, he, by trivial, by trivial, by trivial, by trivial⟩
    have hdl : (st.holder ++ [Line.env e]).dropLast = st.holder := by simp
    rw [hdl]
    exact hh
  · simp only [hce, if_false, Bool.false_eq_true]
    have hcne : co entry ent e ≠ [] := by
      intro h2
      rw [h2] at hce
      exact hce rfl
    refine ⟨Or.inr (by trivial), ?_, ?_, by trivial, by trivial, by trivial, by trivial⟩
    · have hshape : ChunkBase st.holder := by
        rcases hh with h | h
        · rcases hs with h2 | ⟨p, h2⟩
          · exact Or.inr (Or.inl ⟨ent, by rw [h, h2]⟩)
          · exact Or.inr (Or.inr ⟨p, ent, by rw [h, h2]⟩)
        · exact Or.inl h
      have hchunk := wf_chunk st.holder e (co entry ent e) hshape hcne
      rw [List.append_assoc st.out]
      exact wf_append _ _ hw he hchunk
    · cases hcc : co entry ent e with
      | nil => exact absurd hcc hcne
      | cons c cs =>
        apply endsCert_append
        · rw [show ((c :: cs).map Line.cert) = Line.cert c :: cs.map Line.cert from rfl]
          exact endsCert_map_cert_cons cs c
        · simp

lemma envFold_inv (co : String → String → EnvFile → List CertRec)
    (entry ent : String) (h0 : List Line) (hs : HolderS ent h0) :
    ∀ (envs : List EnvFile) (st : OState) (ec : EnvContent),
      st.holder = h0 ∨ st.holder = [] → wfL st.out = true → endsCert st.out = true →
      ((envs.foldl (processEnvStep co entry ent) (st, ec)).1.holder = h0 ∨
        (envs.foldl (processEnvStep co entry ent) (st, ec)).1.holder = []) ∧
      wfL (envs.foldl (processEnvStep co entry ent) (st, ec)).1.out = true ∧
      endsCert (envs.foldl (processEnvStep co entry ent) (st, ec)).1.out = true ∧
      (envs.foldl (processEnvStep co entry ent) (st, ec)).1.err = st.err ∧
      (envs.foldl (processEnvStep co entry ent) (st, ec)).1.zones = st.zones ∧
      (envs.foldl (processEnvStep co entry ent) (st, ec)).1.db = st.db ∧
      (envs.foldl (processEnvStep co entry ent) (st, ec)).1.tickets = st.tickets := by
  intro envs
  induction envs with
  | nil =>
    intro st ec hh hw he
    exact ⟨hh, hw, he, rfl, rfl, rfl, rfl⟩
  | cons e envs ih =>
    intro st ec hh hw he
    rw [List.foldl_cons]
    obtain ⟨hh2, hw2, he2, herr2, hz2, hdb2, ht2⟩ :=
      processEnvStep_inv co entry ent h0 hs st ec e hh hw he
    have hmain := ih (processEnvStep co entry ent (st, ec) e).1
      (processEnvStep co entry ent (st, ec) e).2 hh2 hw2 he2
    rw [show ((processEnvStep co entry ent (st, ec) e).1,
      (processEnvStep co entry ent (st, ec) e).2) =
      processEnvStep co entry ent (st, ec) e from rfl] at hmain
    obtain ⟨a1, a2, a3, a4, a5, a6, a7⟩ := hmain
    exact ⟨a1, a2, a3, a4.trans herr2, a5.trans hz2, a6.trans hdb2, a7.trans ht2⟩

lemma processSub_inv (co : String → String → EnvFile → List CertRec) (entry : String)
    (st : OState) (sub : String × List EnvFile)
    (hh : st.err = none → (st.holder = [] ∨ ∃ p, st.holder = [Line.policy p]))
    (hw : wfL st.out = true) (he : endsCert st.out = true) :
    ((processSub co entry st sub).err = none →
      ((processSub co entry st sub).holder = st.holder ∨
        (processSub co entry st sub).holder = [])) ∧
    wfL (processSub co entry st sub).out = true ∧
    endsCert (processSub co entry st sub).out = true ∧
    ((processSub co entry st sub).err = none → st.err = none) := by
  obtain ⟨sh, so, sz, sdb, stk, slp, serr⟩ := st
  unfold processSub
  cases serr with
  | some er =>
    simp only [Option.isSome_some, if_true]
    exact ⟨fun _ => Or.inl (by trivial), hw, he, fun h2 => h2⟩
  | none =>
    simp only [Option.isSome_none, Bool.false_eq_true, if_false]
    have hs : HolderS sub.1 (sh ++ [Line.sub sub.1]) := by
      rcases hh rfl with h | ⟨p, h⟩
      · exact Or.inl (by rw [show sh = ([] : List Line) from h]; rfl)
      · exact Or.inr ⟨p, by rw [show sh = [Line.policy p] from h]; rfl⟩
    have hfold := envFold_inv co entry sub.1 (sh ++ [Line.sub sub.1]) hs sub.2
      ⟨sh ++ [Line.sub sub.1], so, sz, sdb, stk, slp, none⟩ [] (Or.inl rfl) hw he
    obtain ⟨fh, fw, fe, ferr, fz, fdb, ft⟩ := hfold
    cases hlp : (sub.2.foldl (processEnvStep co entry sub.1)
        (⟨sh ++ [Line.sub sub.1], so, sz, sdb, stk, slp, none⟩, [])).1.lastPol with
    | none =>
      dsimp only
      refine ⟨?_, fw, fe, ?_⟩
      · intro h2; exact Option.noConfusion h2
      · intro h2; exact Option.noConfusion h2
    | some P =>
      dsimp only
      cases hul : unitLedgerStep P
          (sub.2.foldl (processEnvStep co entry sub.1)
            (⟨sh ++ [Line.sub sub.1], so, sz, sdb, stk, slp, none⟩, [])).2
          (sub.2.foldl (processEnvStep co entry sub.1)
            (⟨sh ++ [Line.sub sub.1], so, sz, sdb, stk, slp, none⟩, [])).1.db with
      | error e2 =>
        dsimp only
        refine ⟨?_, fw, fe, ?_⟩
        · intro h2; exact Option.noConfusion h2
        · intro h2; exact Option.noConfusion h2
      | ok BL =>
        dsimp only
        rcases fh with fh | fh
        · rw [fh]
          have hlast : (sh ++ [Line.sub sub.1]).getLast? = some (Line.sub sub.1) := by
            simp
          rw [if_pos hlast]
          have hdl : (sh ++ [Line.sub sub.1]).dropLast = sh := by simp
          exact ⟨fun _ => Or.inl hdl, fw, fe, fun _ => by trivial⟩
        · rw [fh]
          have hcond : ¬(([] : List Line).getLast? = some (Line.sub sub.1)) := by simp
          rw [if_neg hcond]
          exact ⟨fun _ => Or.inr (by trivial), fw, fe, fun _ => by trivial⟩

lemma subFold_inv (co : String → String → EnvFile → List CertRec) (entry : String) :
    ∀ (subs : List (String × List EnvFile)) (st : OState),
      (st.err = none → (st.holder = [Line.policy entry] ∨ st.holder = [])) →
      wfL st.out = true → endsCert st.out = true →
      ((subs.foldl (processSub co entry) st).err = none →
        ((subs.foldl (processSub co entry) st).holder = [Line.policy entry] ∨
          (subs.foldl (processSub co entry) st).holder = [])) ∧
      wfL (subs.foldl (processSub co entry) st).out = true ∧
      endsCert (subs.foldl (processSub co entry) st).out = true := by
  intro subs
  induction subs with
  | nil =>
    intro st hh hw he
    exact ⟨hh, hw, he⟩
  | cons s subs ih =>
    intro st hh hw he
    rw [List.foldl_cons]
    have hstep := processSub_inv co entry st s
      (fun herr => by
        rcases hh herr with h | h
        · exact Or.inr ⟨entry, h⟩
        · exact Or.inl h)
      hw he
    obtain ⟨sh, sw, se, serr⟩ := hstep
    apply ih (processSub co entry st s) ?_ sw se
    intro herr2
    rcases sh herr2 with h | h
    · rw [h]
      exact hh (serr herr2)
    · exact Or.inr h

lemma processEntry_inv (co : String → String → EnvFile → List CertRec)
    (st : OState) (entry : String × List (String × List EnvFile))
    (hh : st.err = none → st.holder = [])
    (hw : wfL st.out = true) (he : endsCert st.out = true) :
    ((processEntry co st entry).err = none → (processEntry co st entry).holder = []) ∧
    wfL (processEntry co st entry).out = true ∧
    endsCert (processEntry co st entry).out = true := by
  obtain ⟨sh, so, sz, sdb, stk, slp, serr⟩ := st
  unfold processEntry
  cases serr with
  | some er =>
    simp only [Option.isSome_some, if_true]
    exact ⟨fun h2 => hh h2, hw, he⟩
  | none =>
    simp only [Option.isSome_none, Bool.false_eq_true, if_false]
    by_cases hz : entry.1 ∈ sz
    · rw [if_pos hz]
      exact ⟨fun _ => hh rfl, hw, he⟩
    · rw [if_neg hz]
      have hfold := subFold_inv co entry.1 entry.2
        ⟨sh ++ [Line.policy entry.1], so, sz ++ [entry.1], sdb, stk, slp, none⟩
        (fun _ => Or.inl (by rw [show sh = ([] : List Line) from hh rfl]; rfl)) hw he
      obtain ⟨fh, fw, fe⟩ := hfold
      cases herr1 : (entry.2.foldl (processSub co entry.1)
          ⟨sh ++ [Line.policy entry.1], so, sz ++ [entry.1], sdb, stk, slp, none⟩).err with
      | some e2 =>
        simp only [Option.isSome_some, if_true]
        refine ⟨?_, fw, fe⟩
        intro h2
        rw [herr1] at h2
        exact Option.noConfusion h2
      | none =>
        simp only [Option.isSome_none, Bool.false_eq_true, if_false]
        rcases fh herr1 with h | h
        · rw [h]
          have hlast : ([Line.policy entry.1] : List Line).getLast? =
              some (Line.policy entry.1) := rfl
          rw [if_pos hlast]
          exact ⟨fun _ => rfl, fw, fe⟩
        · rw [h]
          have hcond : ¬(([] : List Line).getLast? = some (Line.policy entry.1)) := by simp
          rw [if_neg hcond]
          exact ⟨fun _ => h, fw, fe⟩

lemma entryFold_inv (co : String → String → EnvFile → List CertRec) :
    ∀ (tree : Tree) (st : OState),
      (st.err = none → st.holder = []) → wfL st.out = true → endsCert st.out = true →
      ((tree.foldl (processEntry co) st).err = none →
        (tree.foldl (processEntry co) st).holder = []) ∧
      wfL (tree.foldl (processEntry co) st).out = true ∧
      endsCert (tree.foldl (processEntry co) st).out = true := by
  intro tree
  induction tree with
  | nil =>
    intro st hh hw he
    exact ⟨hh, hw, he⟩
  | cons entry tree ih =>
    intro st hh hw he
    rw [List.foldl_cons]
    obtain ⟨eh, ew, ee⟩ := processEntry_inv co st entry hh hw he
    exact ih (processEntry co st entry) eh ew ee

lemma wf_hasCert_policy : ∀ ls : List Line, headIsSub ls = true → wfL ls = true →
    hasCertBefore isPolicyLine ls = true := by
  intro ls h1 h2
  cases ls with
  | nil => simp [headIsSub] at h1
  | cons y t =>
    cases y with
    | policy p => simp [headIsSub] at h1
    | env e => simp [headIsSub] at h1
    | cert c => simp [headIsSub] at h1
    | sub s =>
      simp only [wfL, Bool.and_eq_true] at h2
      obtain ⟨h3, h4⟩ := h2
      cases t with
      | nil => simp [headIsEnv] at h3
      | cons z t2 =>
        cases z with
        | policy p2 => simp [headIsEnv] at h3
        | sub s2 => simp [headIsEnv] at h3
        | cert c2 => simp [headIsEnv] at h3
        | env e2 =>
          simp only [wfL, Bool.and_eq_true] at h4
          obtain ⟨h5, h6⟩ := h4
          cases t2 with
          | nil => simp [headIsCert] at h5
          | cons w t3 =>
            cases w with
            | policy p3 => simp [headIsCert] at h5
            | sub s3 => simp [headIsCert] at h5
            | env e3 => simp [headIsCert] at h5
            | cert c3 => rfl

lemma wf_hasCert_sub : ∀ ls : List Line, headIsEnv ls = true → wfL ls = true →
    hasCertBefore isPolicyOrSubLine ls = true := by
  intro ls h1 h2
  cases ls with
  | nil => simp [headIsEnv] at h1
  | cons y t =>
    cases y with
    | policy p => simp [headIsEnv] at h1
    | sub s => simp [headIsEnv] at h1
    | cert c => simp [headIsEnv] at h1
    | env e =>
      simp only [wfL, Bool.and_eq_true] at h2
      obtain ⟨h3, h4⟩ := h2
      cases t with
      | nil => simp [headIsCert] at h3
      | cons z t2 =>
        cases z with
        | policy p2 => simp [headIsCert] at h3
        | sub s2 => simp [headIsCert] at h3
        | env e2 => simp [headIsCert] at h3
        | cert c2 => rfl

lemma wf_goodLines : ∀ ls : List Line, wfL ls = true → goodLines ls = true := by
  intro ls
  induction ls with
  | nil => intro _; rfl
  | cons y t ih =>
    intro h
    cases y with
    | policy p =>
      simp only [wfL, Bool.and_eq_true] at h
      simp only [goodLines, Bool.and_eq_true]
      exact ⟨wf_hasCert_policy t h.1 h.2, ih h.2⟩
    | sub s =>
      simp only [wfL, Bool.and_eq_true] at h
      simp only [goodLines, Bool.and_eq_true]
      exact ⟨wf_hasCert_sub t h.1 h.2, ih h.2⟩
    | env e =>
      simp only [wfL, Bool.and_eq_true] at h
      simp only [goodLines]
      exact ih h.2
    | cert c =>
      simp only [wfL] at h
      simp only [goodLines]
      exact ih h

/-- A sample certificate record with serial AB12 expiring 2024-12-20. -/
def certAB12 : CertRec := ⟨⟨⟨2024, 1, 1⟩, 0⟩, ⟨⟨2024, 12, 20⟩, 0⟩, ("CN=x"), ("AB12")⟩

/-- A sample environment content carrying certAB12 in prod. -/
def ecPAY : EnvContent := [(("prod"), [certAB12])]

/-- C1 counterexample: recording the same (policy, month/year, environment,
serial) tuple a second time changes the persisted ledger state, because
database_updater appends the serial to the bucket list unconditionally. -/
theorem c1_counterexample :
    database_updater ("PAY") ecPAY (some (database_updater ("PAY") ecPAY none)) ≠
      database_updater ("PAY") ecPAY none := by decide

/-- C1 (amended): database_updater is not idempotent: recording a
certificate again under a policy and environment appends its serial once
more to the month/year bucket, so a serial that is already present is
duplicated rather than left alone. -/
theorem c1_amended (db : Option Ledger) (P env : String) (c : CertRec) :
    ∃ l, bucket (database_updater P [(env, [c])] db) P (dateKey c) env = some l ∧
      c.serial_number ∈ l ∧
      bucket (database_updater P [(env, [c])]
          (some (database_updater P [(env, [c])] db))) P (dateKey c) env =
        some (l ++ [c.serial_number]) := by
  have h1 := bucket_database_updater db P [(env, [c])] (dateKey c) env
  have h2 := bucket_database_updater (some (database_updater P [(env, [c])] db)) P
    [(env, [c])] (dateKey c) env
  have hadd : addedSerials (envCertPairs [(env, [c])]) (dateKey c) env =
      [c.serial_number] := by
    simp [envCertPairs, addedSerials]
  rw [hadd] at h1 h2
  have hne : ([c.serial_number] : List String) ≠ [] := by simp
  rw [if_neg hne] at h1 h2
  refine ⟨(bucket (db.getD []) P (dateKey c) env).getD [] ++ [c.serial_number],
    h1, by simp, ?_⟩
  rw [h2]
  have h3 : bucket ((some (database_updater P [(env, [c])] db)).getD []) P (dateKey c) env =
      some ((bucket (db.getD []) P (dateKey c) env).getD [] ++ [c.serial_number]) := by
    simpa using h1
  rw [h3]
  simp

/-- C2 counterexample: a not_after strictly in the past (one calendar month
before today) is classified as expiring soon: the months component of the
relativedelta is negative, which passes both the months and days tests. -/
theorem c2_counterexample :
    dateLt ⟨2024, 2, 15⟩ ⟨2024, 3, 15⟩ = true ∧
    is_within_three_months ⟨⟨2024, 2, 15⟩, 0⟩ ⟨2024, 3, 15⟩ = true := by decide

/-- C2 (amended): the classifier returns true iff the relativedelta from
today to the target has zero whole years, at most two whole months, and a
non-negative day remainder; it returns true for not_after exactly at today;
it returns true two months and five days out, false exactly three calendar
months out, and true for a not_after exactly one month in the past. -/
theorem c2_amended (today target : Date) (sod : Int) (h : today.Valid) :
    (is_within_three_months ⟨target, sod⟩ today = true ↔
      ((relativedelta target today).years = 0 ∧ (relativedelta target today).months ≤ 2 ∧
        0 ≤ (relativedelta target today).days)) ∧
    is_within_three_months ⟨today, sod⟩ today = true ∧
    is_within_three_months ⟨⟨2024, 3, 20⟩, 0⟩ ⟨2024, 1, 15⟩ = true ∧
    is_within_three_months ⟨⟨2024, 4, 15⟩, 0⟩ ⟨2024, 1, 15⟩ = false ∧
    is_within_three_months ⟨⟨2024, 2, 15⟩, 0⟩ ⟨2024, 3, 15⟩ = true := by
  refine ⟨?_, is_within_three_months_today today sod h, by decide, by decide, by decide⟩
  unfold is_within_three_months
  dsimp only
  rw [Bool.and_eq_true, Bool.and_eq_true]
  simp [beq_iff_eq, decide_eq_true_iff, ge_iff_le, and_assoc]

/-- C2 witness: the amended theorem applied to a concrete valid today. -/
theorem c2_amended_witness :
    is_within_three_months ⟨⟨2024, 5, 10⟩, 0⟩ ⟨2024, 5, 10⟩ = true :=
  (c2_amended ⟨2024, 5, 10⟩ ⟨2024, 5, 10⟩ 0 (by decide)).2.1

/-- C3: the batches of create_JIRA_tickets have pairwise-distinct expiry
months; a month has a batch exactly when some certificate of the
environment content is not ledgered under this policy and has that expiry
month; no batch triple is for a serial already ledgered under the same
policy, month/year key and environment; and the per-sub-policy step
computes the batches from the ledger value read before database_updater
rewrites it. -/
theorem c3_batcher (P : String) (ec : EnvContent) (data : Ledger) (B : Batches)
    (h : create_JIRA_tickets P ec (some data) = Except.ok B) :
    (keysOf B).Nodup ∧
    (∀ m : Int, m ∈ keysOf B ↔ ∃ pc, pc ∈ envCertPairs ec ∧
      ledgered data P (dateKey pc.2) pc.1 pc.2.serial_number = false ∧
      pc.2.not_after.date.month = m) ∧
    batchOK data P B ∧
    (∀ (db : Option Ledger) (B2 : Batches) (L2 : Ledger),
      unitLedgerStep P ec db = Except.ok (B2, L2) →
      create_JIRA_tickets P ec db = Except.ok B2 ∧ L2 = database_updater P ec db) := by
  have hB : (envCertPairs ec).foldl (ticketStep data P) [] = B := by
    have h2 := h
    unfold create_JIRA_tickets at h2
    injection h2 with h3
  subst hB
  refine ⟨ticketFold_keys_nodup data P _ [] (by simp [keysOf]), ?_,
    ticketFold_ok data P _ [] (batchOK_nil data P), ?_⟩
  · intro m
    rw [ticketFold_mem_keys data P (envCertPairs ec) [] m]
    simp [keysOf]
  · intro db B2 L2 hu
    unfold unitLedgerStep at hu
    cases hcj : create_JIRA_tickets P ec db with
    | error e => rw [hcj] at hu; cases hu
    | ok B3 =>
      rw [hcj] at hu
      injection hu with h2
      have h3 : B3 = B2 := congrArg Prod.fst h2
      have h4 : database_updater P ec db = L2 := congrArg Prod.snd h2
      exact ⟨by rw [h3], h4.symm⟩

/-- The batch produced for ecPAY against an empty ledger. -/
def batchPAY : Batches :=
  [(12, [(("prod"), [(⟨⟨2024, 12, 20⟩, 0⟩, ("AB12"), ("CN=x"))])])]

/-- C3 witness: the batcher theorem applied to the concrete policy PAY,
environment content ecPAY and empty ledger. -/
theorem c3_batcher_witness :
    (keysOf batchPAY).Nodup ∧
    (∀ m : Int, m ∈ keysOf batchPAY ↔ ∃ pc, pc ∈ envCertPairs ecPAY ∧
      ledgered [] ("PAY") (dateKey pc.2) pc.1 pc.2.serial_number = false ∧
      pc.2.not_after.date.month = m) ∧
    batchOK [] ("PAY") batchPAY ∧
    (∀ (db : Option Ledger) (B2 : Batches) (L2 : Ledger),
      unitLedgerStep ("PAY") ecPAY db = Except.ok (B2, L2) →
      create_JIRA_tickets ("PAY") ecPAY db = Except.ok B2 ∧
        L2 = database_updater ("PAY") ecPAY db) :=
  c3_batcher ("PAY") ecPAY [] batchPAY rfl

/-- C4: the report writer never emits a policy or sub-policy header with
zero descendant certificate lines beneath it: for every policy tree, zones
set, ledger state and archive contents, the no-empty-header check holds of
the whole report file written by create_output_file. -/
theorem c4_report (co : String → String → EnvFile → List CertRec) (tree : Tree)
    (zones0 : List String) (db0 : Option Ledger) :
    goodLines ((create_output_file co tree (initState zones0 db0)).out) = true := by
  unfold create_output_file initState
  have h := entryFold_inv co tree ⟨[], [], zones0, db0, [], none, none⟩
    (fun _ => rfl) rfl rfl
  exact wf_goodLines _ h.2.1

/-- A parse result yielding no certificates for any environment file. -/
def co0 : String → String → EnvFile → List CertRec := fun _ _ _ => []

/-- A two-policy tree, each policy with one sub-policy and one environment. -/
def tree2 : Tree :=
  [(("P1"), [(("S1"), [⟨("P1"), ("prod")⟩])]),
   (("P2"), [(("S2"), [⟨("P2"), ("prod")⟩])])]

/-- C5: with the ledger file absent (first run), create_JIRA_tickets raises
FileNotFoundError, and the exception aborts the whole run of
create_output_file: the error escapes, the second policy is never processed
(it is not added to zones) and no batches are produced, instead of only the
first unit being reported and skipped. -/
theorem c5_ledger_abort :
    create_JIRA_tickets ("P1") [(("prod"), [])] none =
      Except.error PyError.fileNotFound ∧
    (create_output_file co0 tree2 (initState [] none)).err =
      some PyError.fileNotFound ∧
    (create_output_file co0 tree2 (initState [] none)).zones = [("P1")] ∧
    (create_output_file co0 tree2 (initState [] none)).tickets = [] := by
  exact ⟨rfl, rfl, rfl, rfl⟩

/-- C6: main calls delete_file_in_directory with no arguments although both
parameters are required, so every run raises TypeError before any version
pass; the report is never truncated and no version pass runs. -/
theorem c6_main_crash (versions : List String) (repo_of : String → Tree)
    (container_of : String → String → EnvFile → List CertRec) (db0 : Option Ledger) :
    main versions repo_of container_of db0 = Except.error PyError.typeError := rfl

/-- C7 counterexample: with two candidate non-META subdirectories the
manifest locator does not fail: it silently selects the first one in
listing order. -/
theorem c7_counterexample :
    xml_path_for_Cert [("dirA"), ("dirB")]
        (fun s => if s = ("dirA") then [("CertA.xml")] else [("CertB.xml")]) =
      some (("dirA"), ("CertA.xml")) := by decide

/-- C7 (amended): the locator returns none (after printing the caught
IndexError) exactly when there are zero candidate subdirectories or zero
Cert*.xml files inside the first candidate; with one or more candidates at
both levels it returns the first candidate of each level, never raising an
error on ambiguity. -/
theorem c7_amended (listing : List String) (sub_listing : String → List String) :
    ((listing.filter (fun x => !(strStartsWith x ("META")))).head? = none →
      xml_path_for_Cert listing sub_listing = none) ∧
    (∀ s, (listing.filter (fun x => !(strStartsWith x ("META")))).head? = some s →
      ((sub_listing s).filter
        (fun x => strStartsWith x ("Cert") && strEndsWith x (".xml"))).head? = none →
      xml_path_for_Cert listing sub_listing = none) ∧
    (∀ s c, (listing.filter (fun x => !(strStartsWith x ("META")))).head? = some s →
      ((sub_listing s).filter
        (fun x => strStartsWith x ("Cert") && strEndsWith x (".xml"))).head? = some c →
      xml_path_for_Cert listing sub_listing = some (s, c)) := by
  unfold xml_path_for_Cert
  refine ⟨?_, ?_, ?_⟩
  · intro h
    rw [h]
  · intro s h1 h2
    rw [h1]
    dsimp only
    rw [h2]
  · intro s c h1 h2
    rw [h1]
    dsimp only
    rw [h2]

/-- C7 witness: the amended theorem applied to a listing with one META
directory, one candidate directory and one manifest file. -/
theorem c7_amended_witness :
    xml_path_for_Cert [("META-INF"), ("conf")] (fun _ => [("CertStore.xml")]) =
      some (("conf"), ("CertStore.xml")) :=
  (c7_amended [("META-INF"), ("conf")] (fun _ => [("CertStore.xml")])).2.2
    ("conf") ("CertStore.xml") (by decide) (by decide)

/-- C8: parse_cert returns not_before and not_after equal to the encoded
notBefore and notAfter each shifted forward by exactly one hour; in
particular a certificate valid 2024-01-01T00:00:00Z to 2025-01-01T00:00:00Z
decodes to 2024-01-01T01:00:00 and 2025-01-01T01:00:00. -/
theorem c8_decoder (x : X509) :
    (parse_cert x).not_before = addOneHour x.notBefore ∧
    (parse_cert x).not_after = addOneHour x.notAfter ∧
    parse_cert ⟨⟨⟨2024, 1, 1⟩, 0⟩, ⟨⟨2025, 1, 1⟩, 0⟩, [(("CN"), ("x"))], 43794⟩ =
      ⟨⟨⟨2024, 1, 1⟩, 3600⟩, ⟨⟨2025, 1, 1⟩, 3600⟩, ("CN=x"), ("AB12")⟩ :=
  ⟨rfl, rfl, by decide⟩

/-- C9: a Certificate-typed entity all of whose children fail to produce a
decoded certificate (text nodes, non-content elements, missing or empty
payloads, undecodable bodies) is skipped without aborting the manifest
scan: the parse of the whole list equals the parse of the entities before
it concatenated with the parse of the entities after it, and every record
of a later entity still appears. -/
theorem c9_skip (decode : String → Option X509) (today : Date)
    (es1 es2 : List XEntity) (bad : XEntity)
    (ht : bad.typ = ("Certificate"))
    (hb : ∀ c ∈ bad.children, childNoCert decode c = true) :
    parse_xml_for_certs decode today (es1 ++ bad :: es2) =
      parse_xml_for_certs decode today es1 ++ parse_xml_for_certs decode today es2 ∧
    (∀ r, r ∈ parse_xml_for_certs decode today es2 →
      r ∈ parse_xml_for_certs decode today (es1 ++ bad :: es2)) := by
  have hbadnil : parse_xml_for_certs decode today [bad] = [] := by
    unfold parse_xml_for_certs
    simp [xmlStep, ht, scanChildren_none decode today bad.children hb]
  have heq : parse_xml_for_certs decode today (es1 ++ bad :: es2) =
      parse_xml_for_certs decode today es1 ++ parse_xml_for_certs decode today es2 := by
    rw [show (es1 ++ bad :: es2) = es1 ++ ([bad] ++ es2) from by simp]
    rw [parse_xml_append, parse_xml_append, hbadnil]
    simp
  exact ⟨heq, fun r hr => by rw [heq]; exact List.mem_append.mpr (Or.inr hr)⟩

/-- A decodable payload for the OK string only. -/
def x509OK : X509 := ⟨⟨⟨2024, 2, 1⟩, 0⟩, ⟨⟨2024, 2, 20⟩, 0⟩, [(("CN"), ("x"))], 43794⟩

def decode0 : String → Option X509 := fun s => if s = ("OK") then some x509OK else none

/-- A Certificate entity whose children are all malformed: a text node, a
content element with no child, one with an empty payload and one whose
payload the decoder rejects. -/
def badEntity : XEntity :=
  ⟨("Certificate"), [XChild.textNode, XChild.elem ("content") none,
    XChild.elem ("content") (some none), XChild.elem ("content") (some (some ("BAD")))]⟩

/-- A well-formed Certificate entity. -/
def goodEntity : XEntity := ⟨("Certificate"), [XChild.elem ("content") (some (some ("OK")))]⟩

/-- C9 witness: the skip theorem applied to a concrete manifest with a
malformed entity between two well-formed ones. -/
theorem c9_skip_witness :
    parse_xml_for_certs decode0 ⟨2024, 1, 15⟩ ([goodEntity] ++ badEntity :: [goodEntity]) =
      parse_xml_for_certs decode0 ⟨2024, 1, 15⟩ [goodEntity] ++
        parse_xml_for_certs decode0 ⟨2024, 1, 15⟩ [goodEntity] :=
  (c9_skip decode0 ⟨2024, 1, 15⟩ [goodEntity] [goodEntity] badEntity rfl (by decide)).1

/-- C10: rewriting the ledger for one policy is read-merge-write: every
other policy maps to exactly the entries it had before, and each month/year
and environment bucket under the updated policy is preserved with the new
serials appended after the old ones (untouched buckets are unchanged). -/
theorem c10_frame (db : Option Ledger) (P : String) (ec : EnvContent) :
    (∀ q, q ≠ P → alookup (database_updater P ec db) q = alookup (db.getD []) q) ∧
    (∀ dk env, bucket (database_updater P ec db) P dk env =
      (if addedSerials (envCertPairs ec) dk env = [] then bucket (db.getD []) P dk env
       else some ((bucket (db.getD []) P dk env).getD [] ++
         addedSerials (envCertPairs ec) dk env))) :=
  ⟨fun q hq => alookup_database_updater_ne db P q ec hq,
   fun dk env => bucket_database_updater db P ec dk env⟩

/-- C10 witness: the frame theorem applied to a ledger holding another
policy OTHER, updated for policy PAY. -/
theorem c10_frame_witness :
    alookup (database_updater ("PAY") ecPAY (some [(("OTHER"), [])])) ("OTHER") =
      alookup ((some ([(("OTHER"), ([] : LedgerP))] : Ledger)).getD []) ("OTHER") :=
  (c10_frame (some [(("OTHER"), [])]) ("PAY") ecPAY).1 ("OTHER") (by decide)

end CertMon
